import Mathlib

/-!
Shallow embedding of `pyes/elasticsearch.py` (the `ElasticSearch` client):
path building, endpoint selection, request dispatch preconditioning,
parameter validation, the JSON codec used by `_prep_request` /
`_prep_response`, and the date-extended JSON encoder.

Python strings are modelled as Lean `String` (lists of characters),
Python dicts that flow through the client as association lists in
insertion order, and fallible operations as `Option` / `Except`.
-/

namespace Pyes

/-! ## Python values flowing into `_make_path`

`_make_path` receives strings, numbers (document ids) and `None`
(absent id).  Python truthiness on these: an empty string, the number
0 and `None` are falsy; `str()` renders numbers in decimal and `None`
as "None". -/

inductive PComp where
  | str (s : String)
  | num (n : Int)
  | none_
deriving DecidableEq

def PComp.truthy : PComp → Bool
  | .str s => s ≠ ""
  | .num n => n ≠ 0
  | .none_ => false

def PComp.pstr : PComp → String
  | .str s => s
  | .num n => toString n
  | .none_ => "None"

/-- Python `'/'.join(components)` on the character level. -/
def joinSlashChars : List (List Char) → List Char
  | [] => []
  | [s] => s
  | s :: rest => s ++ '/' :: joinSlashChars rest

def startsWithSlash : List Char → Bool
  | [] => false
  | c :: _ => c = '/'

/--
Model of `ElasticSearch._make_path`:
`path_components = [str(c) for c in path_components if c]`,
`path = '/'.join(path_components)`,
`if not path.startswith('/'): path = '/' + path`.
-/
def make_pathChars (cs : List PComp) : List Char :=
  let p := joinSlashChars ((cs.filter PComp.truthy).map (fun c => c.pstr.data))
  if startsWithSlash p then p else '/' :: p

def make_path (cs : List PComp) : String :=
  String.mk (make_pathChars cs)

/-! ## `','.join` and the facade path computations -/

/-- Python `','.join(l)` for a list of strings. -/
def joinCommaChars : List (List Char) → List Char
  | [] => []
  | [s] => s
  | s :: rest => s ++ ',' :: joinCommaChars rest

def joinComma (l : List String) : String :=
  String.mk (joinCommaChars (l.map String.data))

/-- Python `','.join(s)` applied to a *string* `s`: Python iterates its
characters, interspersing commas between them. -/
def joinCommaString (s : String) : String :=
  String.mk (joinCommaChars (s.data.map (fun c => [c])))

/-- The `ElasticSearch.refresh` path when `indexes` is a list:
`self._make_path([','.join(indexes), '_refresh'])`. -/
def refresh_path_of_list (indexes : List String) : String :=
  make_path [.str (joinComma indexes), .str "_refresh"]

/-- The `ElasticSearch.refresh` path when `indexes` is a single string:
the comma-join runs over its characters. -/
def refresh_path_of_string (indexes : String) : String :=
  make_path [.str (joinCommaString indexes), .str "_refresh"]

/-- The `ElasticSearch.optimize` path for a single string argument. -/
def optimize_path_of_string (indexes : String) : String :=
  make_path [.str (joinCommaString indexes), .str "_optimize"]

/-- The `ElasticSearch.gateway_snapshot` path for a single string argument. -/
def gateway_snapshot_path_of_string (indexes : String) : String :=
  make_path [.str (joinCommaString indexes), .str "_gateway", .str "snapshot"]

/-- Model of `ElasticSearch.status`: a plain string argument is special-cased by
`isinstance(indexes, (str, unicode))` and used as a single component. -/
def status_path_of_string (indexes : String) : String :=
  make_path [.str indexes, .str "_status"]

/-- The `ElasticSearch.flush` path: same `isinstance` special case as `status`. -/
def flush_path_of_string (indexes : String) : String :=
  make_path [.str indexes, .str "_flush"]

/-! ## `get_connection` and the connection pool -/

/-- Python `random.randint(a, b)` draws an integer from the *inclusive*
range `[a, b]`; this is its support. -/
def randint_support (a b : Nat) : List Nat :=
  (List.range (b + 1 - a)).map (fun k => a + k)

/--
Model of `ElasticSearch.get_connection`:
`num = len(self.connection_pool)`,
`if num == 1: return self.connection_pool[0]`,
`return self.connection_pool[randint(0, num)]`.
The draw argument is the value produced by `randint(0, num)`;
an out-of-range index (Python `IndexError`) is modelled as `none`.
-/
def get_connection {α : Type} (pool : List α) (draw : Nat) : Option α :=
  let num := pool.length
  if num = 1 then pool.get? 0
  else pool.get? draw

/-! ## `cluster_health` parameter validation -/

/--
Model of `ElasticSearch.cluster_health` up to the dispatch call: returns the
path and the mapping handed to `_send_request`, or the message of the
`ValueError` it raises.  Mirrors the source exactly:
the `level` check only runs when `level != "cluster"`, and the
`wait_for_status` check (guarded by Python truthiness) compares against
`["cluster", "indices", "shards"]` — the same list as `level`.
-/
def cluster_health (level : String) (wait_for_status : Option String)
    (timeout : Nat) : Except String (String × List (String × String)) :=
  let path := make_path [.str "_cluster", .str "health"]
  match
    (if level ≠ "cluster" then
      if ¬ (["cluster", "indices", "shards"].contains level) then
        Except.error ("Invalid level: " ++ level)
      else Except.ok [("level", level)]
    else Except.ok []) with
  | .error e => .error e
  | .ok mapping =>
    match wait_for_status with
    | some w =>
      if w ≠ "" then
        if ¬ (["cluster", "indices", "shards"].contains w) then
          .error ("Invalid wait_for_status: " ++ w)
        else
          .ok (path, mapping ++ [("wait_for_status", w),
                                 ("timeout", toString timeout ++ "s")])
      else .ok (path, mapping)
    | none => .ok (path, mapping)

/-! ## `index` method selection -/

/--
Model of `ElasticSearch.index(doc, index, doc_type, id=None, force_insert=False)`,
projected onto (HTTP method, path, query-string args); the body `doc`
is passed through unchanged and does not affect any of the three.
`id` is a `PComp` so that `id=None` (`PComp.none_`) matches the
source's `if id is None` test while any other value is a `PUT`.
-/
def index (index_name doc_type : String) (id : PComp) (force_insert : Bool) :
    String × String × List (String × String) :=
  let querystring_args :=
    if force_insert then [("opType", "create")] else ([] : List (String × String))
  let request_method := match id with
    | .none_ => "POST"
    | _ => "PUT"
  let path := make_path [.str index_name, .str doc_type, id]
  (request_method, path, querystring_args)

/-! ## `_send_request` path preconditioning (`urlencode` and `?` append) -/

/-- Uppercase hex digit, as used by `urllib.quote`. -/
def hexUpper (n : Nat) : Char :=
  if n < 10 then Char.ofNat (48 + n) else Char.ofNat (55 + n)

/-- Python `urllib.quote_plus` on one character: letters, digits and `_.-`
pass through, space becomes `+`, anything else is percent-encoded. -/
def quote_plus_char (c : Char) : List Char :=
  if c = ' ' then ['+']
  else if c.isAlphanum ∨ c = '_' ∨ c = '.' ∨ c = '-' then [c]
  else ['%', hexUpper (c.toNat / 16 % 16), hexUpper (c.toNat % 16)]

def quote_plus (s : String) : String :=
  String.mk (s.data.foldr (fun c acc => quote_plus_char c ++ acc) [])

/-- Python `urllib.urlencode(args)`: `k=v` pairs joined by `&`. -/
def urlencode (args : List (String × String)) : String :=
  String.intercalate "&"
    (args.map (fun kv => quote_plus kv.1 ++ "=" ++ quote_plus kv.2))

/-- First step of `_send_request`:
`if not path.startswith("/"): path = "/" + path`. -/
def normalize_path (path : String) : String :=
  if startsWithSlash path.data then path else "/" ++ path

/-- Path/query preconditioning of `_send_request`:
normalization followed by
`if querystring_args: path = "?".join([path, urlencode(querystring_args)])`. -/
def request_path (path : String) (querystring_args : List (String × String)) :
    String :=
  let path := normalize_path path
  if querystring_args = [] then path
  else path ++ "?" ++ urlencode querystring_args

/-- Spec-side formula for the dispatcher's path handling, written from
the spec's words: "Normalize `path` to start with `/` if it does not
already. If `queryParams` is non-empty, URL-encode them and append as a
`?`-prefixed query string." -/
def dispatch_path_spec (path : String) (queryParams : List (String × String)) :
    String :=
  (if startsWithSlash path.data then path else "/" ++ path)
    ++ (if queryParams = [] then "" else "?" ++ urlencode queryParams)

/-! ## `ESJsonEncoder.default`: the date/datetime extension -/

structure PyDate where
  year : Nat
  month : Nat
  day : Nat
deriving DecidableEq

/-- Python `datetime.datetime`; the microsecond field exists on the Python
object but the encoder's format string never shows it. -/
structure PyDateTime where
  year : Nat
  month : Nat
  day : Nat
  hour : Nat
  minute : Nat
  second : Nat
  microsecond : Nat
deriving DecidableEq

/-- Zero-pad to 2 digits (`%m %d %H %M %S` in `strftime`). -/
def pad2 (n : Nat) : String :=
  if n < 10 then "0" ++ toString n else toString n

/-- Zero-pad to 4 digits (`%Y` in `strftime`). -/
def pad4 (n : Nat) : String :=
  if n < 10 then "000" ++ toString n
  else if n < 100 then "00" ++ toString n
  else if n < 1000 then "0" ++ toString n
  else toString n

/-- Model of `value.strftime("%Y-%m-%dT%H:%M:%S")`. -/
def strftime_iso (year month day hour minute second : Nat) : String :=
  pad4 year ++ "-" ++ pad2 month ++ "-" ++ pad2 day ++ "T"
    ++ pad2 hour ++ ":" ++ pad2 minute ++ ":" ++ pad2 second

/-- The "rogue" types `ESJsonEncoder.default` is called on. -/
inductive RogueValue where
  | date (d : PyDate)
  | datetime (dt : PyDateTime)

/--
Model of `ESJsonEncoder.default`: a `datetime` (checked first, since `datetime`
is a subclass of `date`) is formatted directly; a plain `date` is first
promoted via `datetime(value.year, value.month, value.day, 0, 0, 0)`.
-/
def ESJsonEncoder_default : RogueValue → String
  | .datetime dt => strftime_iso dt.year dt.month dt.day dt.hour dt.minute dt.second
  | .date d => strftime_iso d.year d.month d.day 0 0 0

/-! ## The JSON codec behind `_prep_request` / `_prep_response`

`_prep_request(body)` is `json.dumps(body, cls=ESJsonEncoder)` and
`_prep_response(response)` is `json.loads(response)`.  `JVal` models
the JSON-representable Python values without embedded date objects
(for which the `ESJsonEncoder` extension never fires, so `dumps`
behaves as stock `json.dumps`); numbers are modelled as integers
(floating-point values are outside this embedding).  Python 2 dicts
are modelled as association lists in iteration order; `dumps` uses the
default separators `", "` and `": "` and `ensure_ascii=True`. -/

inductive JVal where
  | null
  | bool (b : Bool)
  | num (n : Int)
  | str (s : List Char)
  | arr (xs : List JVal)
  | obj (kvs : List (List Char × JVal))

def lbrace : Char := Char.ofNat 123
def rbrace : Char := Char.ofNat 125

/-- Lowercase hex digit, as emitted in `\uXXXX` escapes by `json.dumps`. -/
def hexLower (n : Nat) : Char :=
  if n < 10 then Char.ofNat (48 + n) else Char.ofNat (87 + n)

/-- The four hex digits of `n < 0x10000`, most significant first. -/
def hex4 (n : Nat) : List Char :=
  [hexLower (n / 4096 % 16), hexLower (n / 256 % 16),
   hexLower (n / 16 % 16), hexLower (n % 16)]

/--
One character of `json.dumps`'s ASCII string escaping: `"` and `\` and
the five short control escapes come from `ESCAPE_DCT`; every other
character outside `0x20`–`0x7e` is `\uXXXX`-escaped (`ensure_ascii`),
with a surrogate pair for characters beyond the basic plane.
-/
def escChar (c : Char) : List Char :=
  if c = '"' then ['\\', '"']
  else if c = '\\' then ['\\', '\\']
  else if c = Char.ofNat 8 then ['\\', 'b']
  else if c = Char.ofNat 9 then ['\\', 't']
  else if c = Char.ofNat 10 then ['\\', 'n']
  else if c = Char.ofNat 12 then ['\\', 'f']
  else if c = Char.ofNat 13 then ['\\', 'r']
  else if 0x20 ≤ c.toNat ∧ c.toNat ≤ 0x7e then [c]
  else if c.toNat < 0x10000 then '\\' :: 'u' :: hex4 c.toNat
  else
    let n := c.toNat - 0x10000
    ('\\' :: 'u' :: hex4 (0xd800 + n / 0x400))
      ++ ('\\' :: 'u' :: hex4 (0xdc00 + n % 0x400))

def escStr (s : List Char) : List Char :=
  s.foldr (fun c acc => escChar c ++ acc) []

/-- A JSON string literal: `"` + escaped body + `"`. -/
def renderStr (s : List Char) : List Char :=
  '"' :: escStr s ++ ['"']

def digitChar (n : Nat) : Char := Char.ofNat (48 + n)

/-- Decimal digits of `n`, least significant first. -/
def natToRevChars (n : Nat) : List Char :=
  if n < 10 then [digitChar n]
  else digitChar (n % 10) :: natToRevChars (n / 10)
decreasing_by exact Nat.div_lt_self (by omega) (by omega)

/-- Decimal rendering of a natural, no leading zeros. -/
def renderNat (n : Nat) : List Char :=
  (natToRevChars n).reverse

/-- The `repr` of a Python int, as emitted by `json.dumps`. -/
def renderInt (n : Int) : List Char :=
  if n < 0 then '-' :: renderNat n.natAbs else renderNat n.natAbs

mutual

/-- Model of `json.dumps` with default separators `", "` / `": "`. -/
def renderVal : JVal → List Char
  | .null => "null".data
  | .bool true => "true".data
  | .bool false => "false".data
  | .num n => renderInt n
  | .str s => renderStr s
  | .arr [] => ['[', ']']
  | .arr (x :: xs) => '[' :: (renderVal x ++ renderElems xs ++ [']'])
  | .obj [] => [lbrace, rbrace]
  | .obj (kv :: kvs) =>
      lbrace :: (renderMember kv ++ renderMembers kvs ++ [rbrace])

/-- Second and later array elements, each preceded by `", "`. -/
def renderElems : List JVal → List Char
  | [] => []
  | x :: xs => ',' :: ' ' :: (renderVal x ++ renderElems xs)

/-- One object member: `"key": value`. -/
def renderMember : List Char × JVal → List Char
  | (k, v) => renderStr k ++ ':' :: ' ' :: renderVal v

/-- Second and later object members, each preceded by `", "`. -/
def renderMembers : List (List Char × JVal) → List Char
  | [] => []
  | kv :: kvs => ',' :: ' ' :: (renderMember kv ++ renderMembers kvs)

end

/-- Model of `json.dumps(v)` (no embedded dates, so `cls=ESJsonEncoder` is inert). -/
def json_dumps (v : JVal) : String :=
  String.mk (renderVal v)

/-! ### The parser side (`json.loads`) -/

def isWs (c : Char) : Bool :=
  c = ' ' ∨ c = Char.ofNat 9 ∨ c = Char.ofNat 10 ∨ c = Char.ofNat 13

def skipWs : List Char → List Char
  | [] => []
  | c :: cs => if isWs c then skipWs cs else c :: cs

def isDigit (c : Char) : Bool :=
  48 ≤ c.toNat ∧ c.toNat ≤ 57

def fromHexDigit (c : Char) : Option Nat :=
  if 48 ≤ c.toNat ∧ c.toNat ≤ 57 then some (c.toNat - 48)
  else if 97 ≤ c.toNat ∧ c.toNat ≤ 102 then some (c.toNat - 87)
  else if 65 ≤ c.toNat ∧ c.toNat ≤ 70 then some (c.toNat - 55)
  else none

/-- Value of four hex digit characters, most significant first. -/
def hex4val (a b c d : Char) : Option Nat :=
  match fromHexDigit a, fromHexDigit b, fromHexDigit c, fromHexDigit d with
  | some x, some y, some z, some w => some (x * 4096 + y * 256 + z * 16 + w)
  | _, _, _, _ => none

/-- The character denoted by a one-letter escape `\e`. -/
def escCode (e : Char) : Option Char :=
  if e = '"' then some '"'
  else if e = '\\' then some '\\'
  else if e = '/' then some '/'
  else if e = 'b' then some (Char.ofNat 8)
  else if e = 'f' then some (Char.ofNat 12)
  else if e = 'n' then some (Char.ofNat 10)
  else if e = 'r' then some (Char.ofNat 13)
  else if e = 't' then some (Char.ofNat 9)
  else none

/-!
Model of `py_scanstring`: the body of a string literal after the opening
quote, returning the decoded characters and the input after the closing
quote, factored into one helper per escape form.  The `\uXXXX` escapes
recombine surrogate pairs; a lone surrogate (which Python 2 would keep
but a Lean `Char` cannot represent) is rejected.
-/
mutual

def parseStringBody : List Char → Option (List Char × List Char)
  | [] => none
  | c :: rest =>
    if c = '"' then some ([], rest)
    else if c = '\\' then parseEscape rest
    else (parseStringBody rest).map (fun p => (c :: p.1, p.2))
termination_by s => s.length

/-- What follows a backslash inside a string literal. -/
def parseEscape : List Char → Option (List Char × List Char)
  | [] => none
  | e :: rest =>
    if e = 'u' then parseUEscape rest
    else
      (escCode e).bind
        (fun ec => (parseStringBody rest).map (fun p => (ec :: p.1, p.2)))
termination_by s => s.length

/-- An escape `\uXXXX`: a basic-plane character, or the high half of a surrogate
pair. -/
def parseUEscape : List Char → Option (List Char × List Char)
  | a :: b :: c :: d :: rest =>
    (hex4val a b c d).bind (fun n =>
      if 0xd800 ≤ n ∧ n < 0xdc00 then parseLowSurrogate n rest
      else (parseStringBody rest).map (fun p => (Char.ofNat n :: p.1, p.2)))
  | _ => none
termination_by s => s.length

/-- The low `\uXXXX` half of a surrogate pair, recombined with the high
half `hi`. -/
def parseLowSurrogate (hi : Nat) : List Char → Option (List Char × List Char)
  | s1 :: s2 :: a :: b :: c :: d :: rest =>
    if s1 = '\\' ∧ s2 = 'u' then
      (hex4val a b c d).bind (fun m =>
        if 0xdc00 ≤ m ∧ m < 0xe000 then
          (parseStringBody rest).map (fun p =>
            (Char.ofNat (0x10000 + (hi - 0xd800) * 0x400 + (m - 0xdc00)) :: p.1,
              p.2))
        else none)
    else none
  | _ => none
termination_by s => s.length

end

/-- Greedy run of decimal digits. -/
def takeDigits : List Char → List Char × List Char
  | [] => ([], [])
  | c :: cs =>
    if isDigit c then
      let p := takeDigits cs
      (c :: p.1, p.2)
    else ([], c :: cs)

def digitsVal (ds : List Char) : Nat :=
  ds.foldl (fun a c => a * 10 + (c.toNat - 48)) 0

/--
Integer part of the JSON number grammar `(-?(?:0|[1-9]\d*))`:
a bare `0`, or a nonzero digit followed by a greedy digit run.
-/
def parseNatNum : List Char → Option (Nat × List Char)
  | [] => none
  | c :: cs =>
    if c = '0' then some (0, cs)
    else if isDigit c then
      let p := takeDigits cs
      some (digitsVal (c :: p.1), p.2)
    else none

/-- After the integer part, `.` or `e`/`E` would start the fraction or
exponent of a float, which this integer-only model does not cover. -/
def numTailClear : List Char → Bool
  | [] => true
  | c :: _ => ¬ (c = '.' ∨ c = 'e' ∨ c = 'E')

/-- A JSON number restricted to integers. -/
def parseNumber (s : List Char) : Option (Int × List Char) :=
  match s with
  | [] => none
  | c :: rest =>
    if c = '-' then
      match parseNatNum rest with
      | some (n, r) => if numTailClear r then some (-(n : Int), r) else none
      | none => none
    else
      match parseNatNum (c :: rest) with
      | some (n, r) => if numTailClear r then some ((n : Int), r) else none
      | none => none

mutual

/-- One JSON value, fuel-bounded recursive descent (the core of
`json.loads`), factored into one helper per construct. -/
def parseVal : Nat → List Char → Option (JVal × List Char)
  | 0, _ => none
  | fuel + 1, s =>
    match skipWs s with
    | [] => none
    | c :: cs =>
      if c = '"' then
        (parseStringBody cs).map (fun p => (JVal.str p.1, p.2))
      else if c = '[' then parseArrayBody fuel cs
      else if c = lbrace then parseObjectBody fuel cs
      else if c = 'n' then
        match cs with
        | 'u' :: 'l' :: 'l' :: r => some (.null, r)
        | _ => none
      else if c = 't' then
        match cs with
        | 'r' :: 'u' :: 'e' :: r => some (.bool true, r)
        | _ => none
      else if c = 'f' then
        match cs with
        | 'a' :: 'l' :: 's' :: 'e' :: r => some (.bool false, r)
        | _ => none
      else (parseNumber (c :: cs)).map (fun p => (JVal.num p.1, p.2))
termination_by fuel _ => (fuel, 0)

/-- After `[`: an empty array, or a first element and the element loop. -/
def parseArrayBody (fuel : Nat) (cs : List Char) : Option (JVal × List Char) :=
  match skipWs cs with
  | [] => none
  | d :: ds =>
    if d = ']' then some (.arr [], ds)
    else
      (parseVal fuel (d :: ds)).bind fun vp =>
        (parseElemsRest fuel vp.2).map fun ep => (JVal.arr (vp.1 :: ep.1), ep.2)
termination_by (fuel, 2)

/-- After the opening brace: an empty object, or a first member and the
member loop. -/
def parseObjectBody (fuel : Nat) (cs : List Char) : Option (JVal × List Char) :=
  match skipWs cs with
  | [] => none
  | d :: ds =>
    if d = rbrace then some (.obj [], ds)
    else if d = '"' then
      (parsePair fuel ds).bind fun kvp =>
        (parseMembersRest fuel kvp.2).map fun mp =>
          (JVal.obj (kvp.1 :: mp.1), mp.2)
    else none
termination_by (fuel, 2)

/-- One object member after its opening quote: key, `:`, value. -/
def parsePair (fuel : Nat) (ds : List Char) :
    Option ((List Char × JVal) × List Char) :=
  (parseStringBody ds).bind fun kp =>
    match skipWs kp.2 with
    | [] => none
    | e :: es =>
      if e = ':' then (parseVal fuel es).map fun vp => ((kp.1, vp.1), vp.2)
      else none
termination_by (fuel, 1)

/-- After one array element: `]` closes, `,` continues. -/
def parseElemsRest : Nat → List Char → Option (List JVal × List Char)
  | 0, _ => none
  | fuel + 1, s =>
    match skipWs s with
    | [] => none
    | c :: r =>
      if c = ']' then some ([], r)
      else if c = ',' then
        (parseVal fuel r).bind fun vp =>
          (parseElemsRest fuel vp.2).map fun ep => (vp.1 :: ep.1, ep.2)
      else none
termination_by fuel _ => (fuel, 1)

/-- After one object member: the closing brace ends the object, `,`
continues with another quoted key. -/
def parseMembersRest : Nat → List Char →
    Option (List (List Char × JVal) × List Char)
  | 0, _ => none
  | fuel + 1, s =>
    match skipWs s with
    | [] => none
    | c :: r =>
      if c = rbrace then some ([], r)
      else if c = ',' then
        match skipWs r with
        | [] => none
        | d :: ds =>
          if d = '"' then
            (parsePair fuel ds).bind fun kvp =>
              (parseMembersRest fuel kvp.2).map fun mp =>
                (kvp.1 :: mp.1, mp.2)
          else none
      else none
termination_by fuel _ => (fuel, 1)

end

/-- Model of `json.loads(s)`: parse one value, then require only whitespace to
remain.  The fuel `s.length + 1` dominates the recursion depth of any
value whose rendering fits in `s`. -/
def json_loads (s : String) : Option JVal :=
  match parseVal (s.data.length + 1) s.data with
  | some (v, rest) => if skipWs rest = [] then some v else none
  | none => none

/-- Model of `ElasticSearch._prep_request`: `json.dumps(body, cls=ESJsonEncoder)`. -/
def prep_request (body : JVal) : String :=
  json_dumps body

/-- Model of `ElasticSearch._prep_response`: `json.loads(response)`. -/
def prep_response (response : String) : Option JVal :=
  json_loads response

/-! ## `_send_request` end to end -/

/-- The transport's view of one HTTP exchange: `urllib3`'s response
carries a numeric status and a raw payload. -/
structure HttpResponse where
  status : Nat
  data : String

/--
Model of `ElasticSearch._send_request(method, path, body, querystring_args)`
against a transport function `(method, path, body) ↦ response`:
normalizes the path, appends the query string, encodes the body
(`if body:` — an absent body stays the empty string), performs the
call, reads `response.status` (logged only), and returns
`_prep_response(response.data)` unconditionally.
-/
def send_request (transport : String → String → String → HttpResponse)
    (method path : String) (body : Option JVal)
    (querystring_args : List (String × String)) : Option JVal :=
  let p := request_path path querystring_args
  let bodyStr := match body with
    | some b => prep_request b
    | none => ""
  let response := transport method p bodyStr
  let _http_status := response.status
  prep_response response.data

/-! ## Fuel accounting for the parser proofs -/

mutual

/-- Fuel needed by `parseVal` to consume the rendering of `v`. -/
def jsize : JVal → Nat
  | .arr (x :: xs) => 1 + jsize x + jsizeElems xs
  | .obj (kv :: kvs) => 1 + jsize kv.2 + jsizeMembers kvs
  | _ => 1

def jsizeElems : List JVal → Nat
  | [] => 1
  | x :: xs => 1 + jsize x + jsizeElems xs

def jsizeMembers : List (List Char × JVal) → Nat
  | [] => 1
  | kv :: kvs => 1 + jsize kv.2 + jsizeMembers kvs

end

/-- True when the input cannot extend a just-parsed number: empty, or a
head that is no digit and none of `.`, `e`, `E`. -/
def goodTail : List Char → Bool
  | [] => true
  | c :: _ => ¬ (isDigit c = true ∨ c = '.' ∨ c = 'e' ∨ c = 'E')

/-! ## Theorems -/

/-! ### Character facts -/

theorem toNat_ofNat_valid {n : Nat} (h : n.isValidChar) :
    (Char.ofNat n).toNat = n := by
  unfold Char.ofNat
  rw [dif_pos h]
  unfold Char.ofNatAux Char.toNat
  simp [UInt32.toNat]

theorem charValid (c : Char) :
    c.toNat < 0xd800 ∨ (0xe000 ≤ c.toNat ∧ c.toNat < 0x110000) := c.valid

theorem charOfNat_eq {a : Nat} {c : Char} (h : a = c.toNat) :
    Char.ofNat a = c := by
  rw [h, Char.ofNat_toNat]

theorem digit_ne {c : Char} (hd : isDigit c = true) {d : Char}
    (hne : isDigit d = false) : c ≠ d := by
  intro h
  rw [h, hne] at hd
  cases hd

theorem digit_not_ws {c : Char} (hd : isDigit c = true) : isWs c = false := by
  unfold isWs
  refine decide_eq_false fun h => ?_
  rcases h with h | h | h | h <;> (subst h; exact absurd hd (by decide))

/-! ### Decimal digits -/

theorem digitChar_toNat {n : Nat} (h : n < 10) : (digitChar n).toNat = 48 + n :=
  toNat_ofNat_valid (Or.inl (by omega))

theorem isDigit_digitChar {n : Nat} (h : n < 10) :
    isDigit (digitChar n) = true := by
  simp only [isDigit, digitChar_toNat h, decide_eq_true_eq]
  omega

theorem natToRevChars_digits : ∀ n : Nat, ∀ c ∈ natToRevChars n, isDigit c = true := by
  intro n
  induction n using Nat.strong_induction_on with
  | _ n ih =>
    rw [natToRevChars]
    split
    · next h =>
      intro c hc
      simp only [List.mem_singleton] at hc
      subst hc
      exact isDigit_digitChar h
    · next h =>
      intro c hc
      rcases List.mem_cons.mp hc with rfl | hm
      · exact isDigit_digitChar (Nat.mod_lt _ (by omega))
      · exact ih (n / 10) (Nat.div_lt_self (by omega) (by omega)) c hm

theorem natToRevChars_foldr (n : Nat) :
    List.foldr (fun c a => a * 10 + (c.toNat - 48)) 0 (natToRevChars n) = n := by
  induction n using Nat.strong_induction_on with
  | _ n ih =>
    rw [natToRevChars]
    split
    · next h =>
      simp [digitChar_toNat h]
    · next h =>
      simp only [List.foldr_cons,
        ih (n / 10) (Nat.div_lt_self (by omega) (by omega)),
        digitChar_toNat (Nat.mod_lt _ (by omega))]
      omega

theorem renderNat_digits {n : Nat} : ∀ c ∈ renderNat n, isDigit c = true := by
  intro c hc
  unfold renderNat at hc
  rw [List.mem_reverse] at hc
  exact natToRevChars_digits n c hc

theorem digitsVal_renderNat (n : Nat) : digitsVal (renderNat n) = n := by
  unfold digitsVal renderNat
  rw [List.foldl_reverse]
  exact natToRevChars_foldr n

theorem renderNat_cons (n : Nat) :
    ∃ c t, renderNat n = c :: t ∧ isDigit c = true ∧ (n ≠ 0 → c ≠ '0') := by
  induction n using Nat.strong_induction_on with
  | _ n ih =>
    unfold renderNat
    rw [natToRevChars]
    split
    · next h =>
      refine ⟨digitChar n, [], by simp, isDigit_digitChar h, fun hn hc => ?_⟩
      have h48 := congrArg Char.toNat hc
      rw [digitChar_toNat h] at h48
      have : ('0' : Char).toNat = 48 := rfl
      omega
    · next h =>
      obtain ⟨c, t, he, hd, hz⟩ := ih (n / 10) (Nat.div_lt_self (by omega) (by omega))
      unfold renderNat at he
      refine ⟨c, t ++ [digitChar (n % 10)], ?_, hd, fun _ => hz (by omega)⟩
      rw [List.reverse_cons, he]
      simp

/-! ### Number parsing -/

theorem takeDigits_append {ds r : List Char} (hds : ∀ c ∈ ds, isDigit c = true)
    (hr : r = [] ∨ ∃ c t, r = c :: t ∧ isDigit c = false) :
    takeDigits (ds ++ r) = (ds, r) := by
  induction ds with
  | nil =>
    simp only [List.nil_append]
    rcases hr with rfl | ⟨c, t, rfl, hc⟩
    · rfl
    · simp [takeDigits, hc]
  | cons c cs ih =>
    have hc := hds c (List.mem_cons_self _ _)
    simp only [List.cons_append, takeDigits, hc, if_pos, List.append_eq,
      ih (fun x hx => hds x (List.mem_cons_of_mem _ hx))]

theorem parseNatNum_renderNat {n : Nat} {r : List Char}
    (hr : r = [] ∨ ∃ c t, r = c :: t ∧ isDigit c = false) :
    parseNatNum (renderNat n ++ r) = some (n, r) := by
  by_cases h0 : n = 0
  · subst h0
    have hz : renderNat 0 = ['0'] := by
      unfold renderNat
      rw [natToRevChars]
      simp
      rfl
    rw [hz]
    simp [parseNatNum]
  · obtain ⟨c, t, he, hd, hz⟩ := renderNat_cons n
    have hc0 : c ≠ '0' := hz h0
    have htd : ∀ x ∈ t, isDigit x = true := fun x hx =>
      renderNat_digits (n := n) x (by rw [he]; exact List.mem_cons_of_mem _ hx)
    rw [he]
    simp only [List.cons_append, parseNatNum, hc0, if_neg, hd, if_pos,
      takeDigits_append htd hr]
    have hv : digitsVal (c :: t) = n := by
      rw [← he]
      exact digitsVal_renderNat n
    simp [hv]

theorem goodTail_split {r : List Char} (h : goodTail r = true) :
    (r = [] ∨ ∃ c t, r = c :: t ∧ isDigit c = false) ∧ numTailClear r = true := by
  cases r with
  | nil => exact ⟨Or.inl rfl, rfl⟩
  | cons c t =>
    simp only [goodTail, decide_eq_true_eq] at h
    push_neg at h
    obtain ⟨h1, h2, h3, h4⟩ := h
    refine ⟨Or.inr ⟨c, t, rfl, by simpa using h1⟩, ?_⟩
    simp [numTailClear, h2, h3, h4]

theorem parseNumber_renderInt {n : Int} {r : List Char}
    (hr : goodTail r = true) :
    parseNumber (renderInt n ++ r) = some (n, r) := by
  obtain ⟨hr1, hr2⟩ := goodTail_split hr
  by_cases hneg : n < 0
  · unfold renderInt
    rw [if_pos hneg]
    simp only [List.cons_append, parseNumber, if_pos,
      parseNatNum_renderNat hr1, hr2, if_true]
    simp only [Option.some.injEq, Prod.mk.injEq]
    exact ⟨by omega, trivial⟩
  · unfold renderInt
    rw [if_neg hneg]
    obtain ⟨c, t, he, hd, _⟩ := renderNat_cons n.natAbs
    have hcm : c ≠ '-' := digit_ne hd (by decide)
    rw [he]
    simp only [List.cons_append, parseNumber, hcm, if_neg]
    rw [← List.cons_append, ← he, parseNatNum_renderNat hr1]
    simp [hr2, Int.natAbs_of_nonneg (by omega : (0:Int) ≤ n)]

/-! ### String escaping round-trip -/

theorem escStr_cons (c : Char) (cs : List Char) :
    escStr (c :: cs) = escChar c ++ escStr cs := by
  simp [escStr]

theorem hex4val_hex4 {n : Nat} (h : n < 0x10000) :
    hex4val (hexLower (n / 4096 % 16)) (hexLower (n / 256 % 16))
      (hexLower (n / 16 % 16)) (hexLower (n % 16)) = some n := by
  have h16 : ∀ d : Nat, d < 16 → fromHexDigit (hexLower d) = some d := by decide
  unfold hex4val
  rw [h16 _ (Nat.mod_lt _ (by omega)), h16 _ (Nat.mod_lt _ (by omega)),
    h16 _ (Nat.mod_lt _ (by omega)), h16 _ (Nat.mod_lt _ (by omega))]
  simp only [Option.some.injEq]
  omega

theorem parseStringBody_backslash (t : List Char) :
    parseStringBody ('\\' :: t) = parseEscape t := by
  simp [parseStringBody]

theorem parseEscape_u (t : List Char) :
    parseEscape ('u' :: t) = parseUEscape t := by
  simp [parseEscape]

theorem parseStringBody_uu (hi lo : Nat) (hhi : hi < 0x10000)
    (hlo : lo < 0x10000) (hhis : 0xd800 ≤ hi ∧ hi < 0xdc00)
    (hlos : 0xdc00 ≤ lo ∧ lo < 0xe000) (X : List Char) :
    parseStringBody ('\\' :: 'u' :: (hex4 hi ++ ('\\' :: 'u' :: (hex4 lo ++ X)))) =
      (parseStringBody X).map (fun p =>
        (Char.ofNat (0x10000 + (hi - 0xd800) * 0x400 + (lo - 0xdc00)) :: p.1,
          p.2)) := by
  rw [parseStringBody_backslash, parseEscape_u]
  conv_lhs => rw [hex4]
  simp only [List.cons_append, List.nil_append]
  simp only [parseUEscape]
  rw [hex4val_hex4 hhi]
  simp only [Option.bind]
  rw [if_pos hhis]
  conv_lhs => rw [hex4]
  simp only [List.cons_append, List.nil_append]
  simp only [parseLowSurrogate]
  simp only [and_self, if_true]
  rw [hex4val_hex4 hlo]
  simp only [Option.bind]
  rw [if_pos hlos]

theorem parseStringBody_escStr : ∀ (s r : List Char),
    parseStringBody (escStr s ++ '"' :: r) = some (s, r) := by
  intro s
  induction s with
  | nil =>
    intro r
    simp [escStr, parseStringBody]
  | cons c cs ih =>
    intro r
    rw [escStr_cons, List.append_assoc]
    unfold escChar
    by_cases h1 : c = '"'
    · subst h1
      simp [parseStringBody, parseEscape, escCode, ih]
    · rw [if_neg h1]
      by_cases h2 : c = '\\'
      · subst h2
        simp [parseStringBody, parseEscape, escCode, ih]
      · rw [if_neg h2]
        by_cases h3 : c = Char.ofNat 8
        · subst h3
          simp [parseStringBody, parseEscape, escCode, ih]
        · rw [if_neg h3]
          by_cases h4 : c = Char.ofNat 9
          · subst h4
            simp [parseStringBody, parseEscape, escCode, ih]
          · rw [if_neg h4]
            by_cases h5 : c = Char.ofNat 10
            · subst h5
              simp [parseStringBody, parseEscape, escCode, ih]
            · rw [if_neg h5]
              by_cases h6 : c = Char.ofNat 12
              · subst h6
                simp [parseStringBody, parseEscape, escCode, ih]
              · rw [if_neg h6]
                by_cases h7 : c = Char.ofNat 13
                · subst h7
                  simp [parseStringBody, parseEscape, escCode, ih]
                · rw [if_neg h7]
                  by_cases h8 : 0x20 ≤ c.toNat ∧ c.toNat ≤ 0x7e
                  · rw [if_pos h8]
                    simp [parseStringBody, h1, h2, ih]
                  · rw [if_neg h8]
                    by_cases h9 : c.toNat < 0x10000
                    · -- single \uXXXX escape, basic-plane character
                      rw [if_pos h9]
                      have hns : ¬ (0xd800 ≤ c.toNat ∧ c.toNat < 0xdc00) := by
                        rcases charValid c with h | h <;> omega
                      simp [hex4, parseStringBody, parseEscape, parseUEscape,
                        hex4val_hex4 h9, hns, ih]
                    · -- astral-plane character, surrogate pair
                      rw [if_neg h9]
                      have hv : c.toNat < 0x110000 := by
                        rcases charValid c with h | h <;> omega
                      have hhi : 0xd800 + (c.toNat - 0x10000) / 0x400 < 0x10000 := by
                        omega
                      have hhis : 0xd800 ≤ 0xd800 + (c.toNat - 0x10000) / 0x400 ∧
                          0xd800 + (c.toNat - 0x10000) / 0x400 < 0xdc00 := by omega
                      have hlo : 0xdc00 + (c.toNat - 0x10000) % 0x400 < 0x10000 := by
                        omega
                      have hlos : 0xdc00 ≤ 0xdc00 + (c.toNat - 0x10000) % 0x400 ∧
                          0xdc00 + (c.toNat - 0x10000) % 0x400 < 0xe000 := by omega
                      simp only [List.cons_append, List.append_assoc]
                      rw [parseStringBody_uu _ _ hhi hlo hhis hlos, ih]
                      simp only [Option.map]
                      refine congrArg some ?_
                      refine congrArg (fun ch => (ch :: cs, r)) ?_
                      exact charOfNat_eq (by omega)

/-! ### Small-step reductions of the value parser -/

theorem skipWs_cons {c : Char} (h : isWs c = false) (t : List Char) :
    skipWs (c :: t) = c :: t := by
  simp [skipWs, h]

theorem skipWs_space (t : List Char) : skipWs (' ' :: t) = skipWs t := by
  simp [skipWs, isWs]

theorem parseVal_space (g : Nat) (t : List Char) :
    parseVal g (' ' :: t) = parseVal g t := by
  cases g with
  | zero => simp only [parseVal]
  | succ f =>
    simp only [parseVal]
    rw [skipWs_space]

theorem renderInt_head (n : Int) :
    ∃ c t, renderInt n = c :: t ∧ (isDigit c = true ∨ c = '-') := by
  unfold renderInt
  by_cases h : n < 0
  · rw [if_pos h]
    exact ⟨'-', _, rfl, Or.inr rfl⟩
  · rw [if_neg h]
    obtain ⟨c, t, he, hd, _⟩ := renderNat_cons n.natAbs
    exact ⟨c, t, he, Or.inl hd⟩

theorem renderVal_null : renderVal .null = ['n', 'u', 'l', 'l'] := by
  simp [renderVal]

theorem renderVal_true : renderVal (.bool true) = ['t', 'r', 'u', 'e'] := by
  simp [renderVal]

theorem renderVal_false : renderVal (.bool false) = ['f', 'a', 'l', 's', 'e'] := by
  simp [renderVal]

theorem renderVal_num (n : Int) : renderVal (.num n) = renderInt n := by
  simp [renderVal]

theorem renderVal_str (s : List Char) :
    renderVal (.str s) = '"' :: (escStr s ++ ['"']) := by
  simp [renderVal, renderStr]

theorem renderVal_arr_nil : renderVal (.arr []) = ['[', ']'] := by
  simp [renderVal]

theorem renderVal_arr_cons (x : JVal) (xs : List JVal) :
    renderVal (.arr (x :: xs)) =
      '[' :: (renderVal x ++ renderElems xs ++ [']']) := by
  simp [renderVal]

theorem renderVal_obj_nil : renderVal (.obj []) = [lbrace, rbrace] := by
  simp [renderVal]

theorem renderVal_obj_cons (kv : List Char × JVal)
    (kvs : List (List Char × JVal)) :
    renderVal (.obj (kv :: kvs)) =
      lbrace :: (renderMember kv ++ renderMembers kvs ++ [rbrace]) := by
  simp [renderVal]

theorem renderElems_nil : renderElems [] = [] := by
  simp [renderElems]

theorem renderElems_cons (x : JVal) (xs : List JVal) :
    renderElems (x :: xs) = ',' :: ' ' :: (renderVal x ++ renderElems xs) := by
  simp [renderElems]

theorem renderMember_eq (k : List Char) (v : JVal) :
    renderMember (k, v) = renderStr k ++ ':' :: ' ' :: renderVal v := by
  simp [renderMember]

theorem renderMembers_nil : renderMembers [] = [] := by
  simp [renderMembers]

theorem renderMembers_cons (kv : List Char × JVal)
    (kvs : List (List Char × JVal)) :
    renderMembers (kv :: kvs) =
      ',' :: ' ' :: (renderMember kv ++ renderMembers kvs) := by
  simp [renderMembers]

theorem renderVal_head (v : JVal) :
    ∃ c t, renderVal v = c :: t ∧ isWs c = false ∧ c ≠ ']' := by
  cases v with
  | null => exact ⟨'n', _, renderVal_null, by decide, by decide⟩
  | bool b =>
    cases b with
    | true => exact ⟨'t', _, renderVal_true, by decide, by decide⟩
    | false => exact ⟨'f', _, renderVal_false, by decide, by decide⟩
  | num n =>
    obtain ⟨c, t, he, hp⟩ := renderInt_head n
    refine ⟨c, t, by rw [renderVal_num, he], ?_, ?_⟩
    · rcases hp with hd | rfl
      · exact digit_not_ws hd
      · decide
    · rcases hp with hd | rfl
      · exact digit_ne hd (by decide)
      · decide
  | str s => exact ⟨'"', _, renderVal_str s, by decide, by decide⟩
  | arr xs =>
    cases xs with
    | nil => exact ⟨'[', _, renderVal_arr_nil, by decide, by decide⟩
    | cons x xs => exact ⟨'[', _, renderVal_arr_cons x xs, by decide, by decide⟩
  | obj kvs =>
    cases kvs with
    | nil => exact ⟨lbrace, _, renderVal_obj_nil, by decide, by decide⟩
    | cons kv kvs =>
      exact ⟨lbrace, _, renderVal_obj_cons kv kvs, by decide, by decide⟩

theorem goodTail_elems (xs : List JVal) (r : List Char) :
    goodTail (renderElems xs ++ ']' :: r) = true := by
  cases xs with
  | nil =>
    rw [renderElems_nil, List.nil_append]
    rfl
  | cons x xs =>
    rw [renderElems_cons]
    simp only [List.cons_append]
    rfl

theorem goodTail_members (kvs : List (List Char × JVal)) (r : List Char) :
    goodTail (renderMembers kvs ++ rbrace :: r) = true := by
  cases kvs with
  | nil =>
    rw [renderMembers_nil, List.nil_append]
    rfl
  | cons kv kvs =>
    rw [renderMembers_cons]
    simp only [List.cons_append]
    rfl

theorem jsize_pos (v : JVal) : 1 ≤ jsize v := by
  cases v with
  | null => simp only [jsize]; omega
  | bool b => simp only [jsize]; omega
  | num n => simp only [jsize]; omega
  | str s => simp only [jsize]; omega
  | arr xs => cases xs <;> (simp only [jsize]; omega)
  | obj kvs => cases kvs <;> (simp only [jsize]; omega)

theorem jsizeElems_pos (xs : List JVal) : 1 ≤ jsizeElems xs := by
  cases xs <;> (simp only [jsizeElems]; omega)

theorem jsizeMembers_pos (kvs : List (List Char × JVal)) :
    1 ≤ jsizeMembers kvs := by
  cases kvs <;> (simp only [jsizeMembers]; omega)

theorem parseVal_quote (f : Nat) (cs : List Char) :
    parseVal (f + 1) ('"' :: cs) =
      (parseStringBody cs).map (fun p => (JVal.str p.1, p.2)) := by
  simp [parseVal, skipWs, isWs]

theorem parseVal_lbracket (f : Nat) (cs : List Char) :
    parseVal (f + 1) ('[' :: cs) = parseArrayBody f cs := by
  simp [parseVal, skipWs, isWs]

theorem parseVal_lbrace (f : Nat) (cs : List Char) :
    parseVal (f + 1) (lbrace :: cs) = parseObjectBody f cs := by
  simp [parseVal, skipWs, isWs, lbrace]

theorem parseVal_null_lit (f : Nat) (r : List Char) :
    parseVal (f + 1) ('n' :: 'u' :: 'l' :: 'l' :: r) = some (.null, r) := by
  simp [parseVal, skipWs, isWs, lbrace]

theorem parseVal_true_lit (f : Nat) (r : List Char) :
    parseVal (f + 1) ('t' :: 'r' :: 'u' :: 'e' :: r) = some (.bool true, r) := by
  simp [parseVal, skipWs, isWs, lbrace]

theorem parseVal_false_lit (f : Nat) (r : List Char) :
    parseVal (f + 1) ('f' :: 'a' :: 'l' :: 's' :: 'e' :: r) =
      some (.bool false, r) := by
  simp [parseVal, skipWs, isWs, lbrace]

theorem parseVal_number (f : Nat) (c0 : Char) (cs : List Char)
    (hp : isDigit c0 = true ∨ c0 = '-') :
    parseVal (f + 1) (c0 :: cs) =
      (parseNumber (c0 :: cs)).map (fun p => (JVal.num p.1, p.2)) := by
  have hnws : isWs c0 = false := by
    rcases hp with hd | rfl
    · exact digit_not_ws hd
    · decide
  have hq : ¬ c0 = '"' := by
    rcases hp with hd | rfl
    · exact digit_ne hd (by decide)
    · decide
  have hlb : ¬ c0 = '[' := by
    rcases hp with hd | rfl
    · exact digit_ne hd (by decide)
    · decide
  have hbr : ¬ c0 = lbrace := by
    rcases hp with hd | rfl
    · exact digit_ne hd (by decide)
    · decide
  have hn : ¬ c0 = 'n' := by
    rcases hp with hd | rfl
    · exact digit_ne hd (by decide)
    · decide
  have ht : ¬ c0 = 't' := by
    rcases hp with hd | rfl
    · exact digit_ne hd (by decide)
    · decide
  have hf : ¬ c0 = 'f' := by
    rcases hp with hd | rfl
    · exact digit_ne hd (by decide)
    · decide
  simp only [parseVal]
  rw [skipWs_cons hnws]
  simp only [if_neg hq, if_neg hlb, if_neg hbr, if_neg hn, if_neg ht, if_neg hf]

theorem parseArrayBody_rbracket (f : Nat) (ds : List Char) :
    parseArrayBody f (']' :: ds) = some (.arr [], ds) := by
  simp [parseArrayBody, skipWs, isWs]

theorem parseArrayBody_head (f : Nat) (c0 : Char) (cs : List Char)
    (hnws : isWs c0 = false) (hnb : c0 ≠ ']') :
    parseArrayBody f (c0 :: cs) =
      (parseVal f (c0 :: cs)).bind fun vp =>
        (parseElemsRest f vp.2).map fun ep =>
          (JVal.arr (vp.1 :: ep.1), ep.2) := by
  simp only [parseArrayBody]
  rw [skipWs_cons hnws]
  simp only [if_neg hnb]

theorem parseObjectBody_rbrace (f : Nat) (ds : List Char) :
    parseObjectBody f (rbrace :: ds) = some (.obj [], ds) := by
  simp [parseObjectBody, skipWs, isWs, rbrace]

theorem parseObjectBody_quote (f : Nat) (ds : List Char) :
    parseObjectBody f ('"' :: ds) =
      (parsePair f ds).bind fun kvp =>
        (parseMembersRest f kvp.2).map fun mp =>
          (JVal.obj (kvp.1 :: mp.1), mp.2) := by
  simp [parseObjectBody, skipWs, isWs, rbrace]

theorem parsePair_render (f : Nat) (k : List Char) (R : List Char) :
    parsePair f (escStr k ++ '"' :: ':' :: ' ' :: R) =
      (parseVal f (' ' :: R)).map fun vp => ((k, vp.1), vp.2) := by
  unfold parsePair
  rw [parseStringBody_escStr]
  simp [skipWs, isWs, Option.bind]

theorem parseElemsRest_rbracket (f : Nat) (r : List Char) :
    parseElemsRest (f + 1) (']' :: r) = some ([], r) := by
  simp [parseElemsRest, skipWs, isWs]

theorem parseElemsRest_comma (f : Nat) (r : List Char) :
    parseElemsRest (f + 1) (',' :: r) =
      (parseVal f r).bind fun vp =>
        (parseElemsRest f vp.2).map fun ep => (vp.1 :: ep.1, ep.2) := by
  simp [parseElemsRest, skipWs, isWs]

theorem parseMembersRest_rbrace (f : Nat) (r : List Char) :
    parseMembersRest (f + 1) (rbrace :: r) = some ([], r) := by
  simp [parseMembersRest, skipWs, isWs, rbrace]

theorem parseMembersRest_comma (f : Nat) (r : List Char) :
    parseMembersRest (f + 1) (',' :: ' ' :: '"' :: r) =
      (parsePair f r).bind fun kvp =>
        (parseMembersRest f kvp.2).map fun mp => (kvp.1 :: mp.1, mp.2) := by
  simp [parseMembersRest, skipWs, isWs, rbrace]

/-! ### The render/parse round trip -/

theorem parse_render : ∀ fuel : Nat,
    (∀ (v : JVal) (rest : List Char), jsize v ≤ fuel → goodTail rest = true →
      parseVal fuel (renderVal v ++ rest) = some (v, rest)) ∧
    (∀ (xs : List JVal) (rest : List Char), jsizeElems xs ≤ fuel →
      parseElemsRest fuel (renderElems xs ++ ']' :: rest) = some (xs, rest)) ∧
    (∀ (kvs : List (List Char × JVal)) (rest : List Char),
      jsizeMembers kvs ≤ fuel →
      parseMembersRest fuel (renderMembers kvs ++ rbrace :: rest) =
        some (kvs, rest)) := by
  intro fuel
  induction fuel with
  | zero =>
    refine ⟨fun v rest h _ => absurd h ?_, fun xs rest h => absurd h ?_,
      fun kvs rest h => absurd h ?_⟩
    · have := jsize_pos v
      omega
    · have := jsizeElems_pos xs
      omega
    · have := jsizeMembers_pos kvs
      omega
  | succ f ih =>
    obtain ⟨ihv, ihe, ihm⟩ := ih
    refine ⟨fun v rest hsz hgt => ?_, fun xs rest hsz => ?_,
      fun kvs rest hsz => ?_⟩
    · -- one value
      cases v with
      | null =>
        rw [renderVal_null]
        simp only [List.cons_append, List.nil_append]
        exact parseVal_null_lit f rest
      | bool b =>
        cases b with
        | true =>
          rw [renderVal_true]
          simp only [List.cons_append, List.nil_append]
          exact parseVal_true_lit f rest
        | false =>
          rw [renderVal_false]
          simp only [List.cons_append, List.nil_append]
          exact parseVal_false_lit f rest
      | num n =>
        obtain ⟨c0, t, he, hp⟩ := renderInt_head n
        rw [renderVal_num, he]
        simp only [List.cons_append]
        rw [parseVal_number f c0 _ hp]
        rw [← List.cons_append, ← he, parseNumber_renderInt hgt]
        rfl
      | str s =>
        rw [renderVal_str]
        simp only [List.cons_append, List.append_assoc, List.singleton_append]
        rw [parseVal_quote, parseStringBody_escStr]
        rfl
      | arr xs =>
        cases xs with
        | nil =>
          rw [renderVal_arr_nil]
          simp only [List.cons_append, List.nil_append]
          rw [parseVal_lbracket, parseArrayBody_rbracket]
        | cons x xs =>
          rw [renderVal_arr_cons]
          simp only [List.cons_append, List.append_assoc,
            List.singleton_append, List.nil_append]
          rw [parseVal_lbracket]
          obtain ⟨c0, t, he, hnws, hnb⟩ := renderVal_head x
          rw [he]
          simp only [List.cons_append]
          rw [parseArrayBody_head f c0 _ hnws hnb]
          rw [← List.cons_append, ← he]
          have hx : jsize x ≤ f := by
            have h1 := jsizeElems_pos xs
            simp only [jsize] at hsz
            omega
          have hxs : jsizeElems xs ≤ f := by
            have h1 := jsize_pos x
            simp only [jsize] at hsz
            omega
          rw [ihv x _ hx (goodTail_elems xs rest)]
          simp only [Option.bind]
          rw [ihe xs rest hxs]
          rfl
      | obj kvs =>
        cases kvs with
        | nil =>
          rw [renderVal_obj_nil]
          simp only [List.cons_append, List.nil_append]
          rw [parseVal_lbrace, parseObjectBody_rbrace]
        | cons kv kvs =>
          obtain ⟨k, v⟩ := kv
          rw [renderVal_obj_cons]
          simp only [List.cons_append, List.append_assoc,
            List.singleton_append, List.nil_append]
          rw [parseVal_lbrace]
          rw [renderMember_eq]
          rw [show renderStr k = '"' :: (escStr k ++ ['"']) from rfl]
          simp only [List.cons_append, List.append_assoc,
            List.singleton_append, List.nil_append]
          rw [parseObjectBody_quote]
          rw [parsePair_render]
          rw [parseVal_space]
          have hv : jsize v ≤ f := by
            have h1 := jsizeMembers_pos kvs
            simp only [jsize] at hsz
            omega
          have hm : jsizeMembers kvs ≤ f := by
            have h1 := jsize_pos v
            simp only [jsize] at hsz
            omega
          rw [ihv v _ hv (goodTail_members kvs rest)]
          simp only [Option.map, Option.bind]
          rw [ihm kvs rest hm]
    · -- the element loop
      cases xs with
      | nil =>
        rw [renderElems_nil, List.nil_append]
        exact parseElemsRest_rbracket f rest
      | cons x xs =>
        rw [renderElems_cons]
        simp only [List.cons_append, List.append_assoc, List.nil_append]
        rw [parseElemsRest_comma, parseVal_space]
        have hx : jsize x ≤ f := by
          have h1 := jsizeElems_pos xs
          simp only [jsizeElems] at hsz
          omega
        have hxs : jsizeElems xs ≤ f := by
          have h1 := jsize_pos x
          simp only [jsizeElems] at hsz
          omega
        rw [ihv x _ hx (goodTail_elems xs rest)]
        simp only [Option.bind]
        rw [ihe xs rest hxs]
        rfl
    · -- the member loop
      cases kvs with
      | nil =>
        rw [renderMembers_nil, List.nil_append]
        exact parseMembersRest_rbrace f rest
      | cons kv kvs =>
        obtain ⟨k, v⟩ := kv
        rw [renderMembers_cons, renderMember_eq]
        rw [show renderStr k = '"' :: (escStr k ++ ['"']) from rfl]
        simp only [List.cons_append, List.append_assoc,
          List.singleton_append, List.nil_append]
        rw [parseMembersRest_comma]
        rw [parsePair_render]
        rw [parseVal_space]
        have hv : jsize v ≤ f := by
          have h1 := jsizeMembers_pos kvs
          simp only [jsizeMembers] at hsz
          omega
        have hm : jsizeMembers kvs ≤ f := by
          have h1 := jsize_pos v
          simp only [jsizeMembers] at hsz
          omega
        rw [ihv v _ hv (goodTail_members kvs rest)]
        simp only [Option.map, Option.bind]
        rw [ihm kvs rest hm]

theorem jval_sizeOf_pos (v : JVal) : 0 < sizeOf v := by
  cases v <;> simp <;> omega

theorem jsize_le_bounded : ∀ k : Nat,
    (∀ v : JVal, sizeOf v ≤ k → jsize v ≤ (renderVal v).length) ∧
    (∀ xs : List JVal, sizeOf xs ≤ k →
      jsizeElems xs ≤ (renderElems xs).length + 1) ∧
    (∀ kvs : List (List Char × JVal), sizeOf kvs ≤ k →
      jsizeMembers kvs ≤ (renderMembers kvs).length + 1) := by
  intro k
  induction k with
  | zero =>
    refine ⟨fun v hv => absurd hv ?_, fun xs hxs => absurd hxs ?_,
      fun kvs hk => absurd hk ?_⟩
    · have := jval_sizeOf_pos v
      omega
    · cases xs <;> simp <;> omega
    · cases kvs <;> simp <;> omega
  | succ k ih =>
    obtain ⟨ihv, ihe, ihm⟩ := ih
    refine ⟨fun v hv => ?_, fun xs hxs => ?_, fun kvs hk => ?_⟩
    · cases v with
      | null =>
        rw [renderVal_null]
        simp [jsize]
      | bool b =>
        cases b with
        | true =>
          rw [renderVal_true]
          simp [jsize]
        | false =>
          rw [renderVal_false]
          simp [jsize]
      | num n =>
        rw [renderVal_num]
        obtain ⟨c, t, he, _⟩ := renderInt_head n
        rw [he]
        simp [jsize]
      | str s =>
        rw [renderVal_str]
        simp [jsize]
      | arr xs =>
        cases xs with
        | nil =>
          rw [renderVal_arr_nil]
          simp [jsize]
        | cons x xs =>
          rw [renderVal_arr_cons]
          simp at hv
          have h1 := ihv x (by omega)
          have h2 := ihe xs (by omega)
          simp only [jsize, List.length_cons, List.length_append]
          omega
      | obj kvs =>
        cases kvs with
        | nil =>
          rw [renderVal_obj_nil]
          simp [jsize]
        | cons kv kvs =>
          obtain ⟨ks, v⟩ := kv
          rw [renderVal_obj_cons, renderMember_eq]
          simp at hv
          have h1 := ihv v (by omega)
          have h2 := ihm kvs (by omega)
          simp only [jsize, List.length_cons, List.length_append]
          omega
    · cases xs with
      | nil =>
        rw [renderElems_nil]
        simp [jsizeElems]
      | cons x xs =>
        rw [renderElems_cons]
        simp at hxs
        have h1 := ihv x (by omega)
        have h2 := ihe xs (by omega)
        simp only [jsizeElems, List.length_cons, List.length_append]
        omega
    · cases kvs with
      | nil =>
        rw [renderMembers_nil]
        simp [jsizeMembers]
      | cons kv kvs =>
        obtain ⟨ks, v⟩ := kv
        rw [renderMembers_cons, renderMember_eq]
        simp at hk
        have h1 := ihv v (by omega)
        have h2 := ihm kvs (by omega)
        simp only [jsizeMembers, List.length_cons, List.length_append]
        omega

theorem jsize_le (v : JVal) : jsize v ≤ (renderVal v).length :=
  (jsize_le_bounded (sizeOf v)).1 v (le_refl _)

/-- C7: codec round trip — for every JSON-representable value without
embedded date objects (modelled by `JVal`: null, booleans, integer
numbers, strings, arrays, string-keyed objects), decoding the encoding
returns the value: `_prep_response(_prep_request(v)) == v`. -/
theorem prep_roundtrip : ∀ v : JVal, prep_response (prep_request v) = some v := by
  intro v
  have hfuel : jsize v ≤ (renderVal v).length + 1 := by
    have := jsize_le v
    omega
  have h := (parse_render ((renderVal v).length + 1)).1 v [] hfuel rfl
  rw [List.append_nil] at h
  unfold prep_response prep_request json_loads json_dumps
  rw [show (String.mk (renderVal v)).data = renderVal v from rfl]
  rw [h]
  rfl

theorem make_path_eq_filter (cs : List PComp) :
    make_path cs = make_path (cs.filter PComp.truthy) := by
  simp [make_path, make_pathChars, List.filter_filter]

theorem startsWithSlash_make_path (cs : List PComp) :
    startsWithSlash (make_path cs).data = true := by
  show startsWithSlash (make_pathChars cs) = true
  have key : ∀ p : List Char,
      startsWithSlash (if startsWithSlash p then p else '/' :: p) = true := by
    intro p
    split
    · next h => exact h
    · next h => simp [startsWithSlash]
  exact key _

/-- C2: the claim that `_make_path` keeps a numeric-zero component is
false: `0` is falsy in Python, so the list comprehension
`[str(c) for c in path_components if c]` drops it and
`_make_path(["idx", "type", 0])` yields `"/idx/type"`, not
`"/idx/type/0"`. -/
theorem make_path_drops_zero_id :
    make_path [.str "idx", .str "type", .num 0] = "/idx/type" ∧
    make_path [.str "idx", .str "type", .num 0] ≠ "/idx/type/0" := by
  constructor
  · decide
  · decide

/-- C2 (amended): `_make_path` drops every falsy component — empty
strings, `None`, and also the number `0` — so
`_make_path(["idx", "type", 0])` yields `"/idx/type"`. -/
theorem make_path_filters_falsy :
    (∀ cs, make_path cs = make_path (cs.filter PComp.truthy)) ∧
    PComp.truthy (.str "") = false ∧
    PComp.truthy .none_ = false ∧
    PComp.truthy (.num 0) = false ∧
    make_path [.str "idx", .str "type", .num 0] = "/idx/type" := by
  exact ⟨make_path_eq_filter, by decide, by decide, by decide, by decide⟩

/-- C8: the claim that the result of `_make_path` starts with *exactly*
one `/` is false: the code only prepends a `/` when the joined string
does not already start with one, so a component that itself begins
with slashes survives verbatim — `_make_path(["//a"])` is `"//a"`,
whose first two characters are both `/`. -/
theorem make_path_double_slash :
    make_path [PComp.str "//a"] = "//a" ∧
    (make_path [PComp.str "//a"]).data.take 2 = ['/', '/'] := by
  constructor
  · decide
  · decide

/-- C8 (amended): for every input sequence the result of `_make_path`
starts with *at least* one `/` (exactly one unless a retained component
itself begins with `/`); falsy components are dropped;
`_make_path(["a", "", "b"]) = "/a/b"` and `_make_path([]) = "/"`. -/
theorem make_path_leading_slash :
    (∀ cs, startsWithSlash (make_path cs).data = true) ∧
    make_path [.str "a", .str "", .str "b"] = "/a/b" ∧
    make_path [] = "/" := by
  exact ⟨startsWithSlash_make_path, by decide, by decide⟩

/-- C10: `refresh`, `optimize` and `gateway_snapshot` apply
`','.join(indexes)` directly, so a plain string argument is iterated
character by character — `refresh("logs")` builds `/l,o,g,s/_refresh` —
whereas `status` and `flush` special-case a string argument via
`isinstance` and build `/logs/_status` and `/logs/_flush`. -/
theorem refresh_string_iterates_chars :
    refresh_path_of_string "logs" = "/l,o,g,s/_refresh" ∧
    optimize_path_of_string "logs" = "/l,o,g,s/_optimize" ∧
    gateway_snapshot_path_of_string "logs" = "/l,o,g,s/_gateway/snapshot" ∧
    status_path_of_string "logs" = "/logs/_status" ∧
    flush_path_of_string "logs" = "/logs/_flush" := by
  refine ⟨by decide, by decide, by decide, by decide, by decide⟩

/-- C1: `get_connection` evaluated at the failing input.  With one
server every draw returns that entry, as claimed; but with two servers
`randint(0, num)` is called with `num = 2`, and since Python's
`randint` is inclusive the draw `2` is in its support — and indexing
`connection_pool[2]` is out of bounds (an `IndexError`, `none` here),
so selection is neither always in bounds nor uniform over the two
endpoints. -/
theorem get_connection_out_of_bounds :
    (∀ draw, get_connection ["http://s1:9200"] draw = some "http://s1:9200") ∧
    2 ∈ randint_support 0 (["http://s1:9200", "http://s2:9200"].length) ∧
    get_connection ["http://s1:9200", "http://s2:9200"] 2 = none := by
  refine ⟨fun draw => rfl, by decide, by decide⟩

/-- C3: `cluster_health` evaluated at the failing input.  A valid
`level` is accepted and an invalid one is rejected before dispatch, as
claimed — but the `wait_for_status` check compares against the *level*
enumeration `["cluster", "indices", "shards"]`, so the documented-valid
value `"green"` raises `ValueError: Invalid wait_for_status: green`
instead of proceeding. -/
theorem cluster_health_rejects_green :
    cluster_health "cluster" (some "green") 30 =
      .error "Invalid wait_for_status: green" ∧
    cluster_health "bogus" none 30 = .error "Invalid level: bogus" ∧
    cluster_health "indices" none 30 =
      .ok ("/_cluster/health", [("level", "indices")]) := by
  refine ⟨rfl, rfl, rfl⟩

/-- C4: `index` with no id issues a POST to `/idx/type`; with `id="7"`
a PUT to `/idx/type/7`; and for every index name, doc type and id the
query string is `[("opType", "create")]` exactly when `force_insert`
is set, else empty. -/
theorem index_method_selection :
    (∀ fi, index "idx" "type" .none_ fi =
      ("POST", "/idx/type", if fi then [("opType", "create")] else [])) ∧
    (∀ fi, index "idx" "type" (.str "7") fi =
      ("PUT", "/idx/type/7", if fi then [("opType", "create")] else [])) ∧
    (∀ name dt id, (index name dt id true).2.2 = [("opType", "create")] ∧
      (index name dt id false).2.2 = []) := by
  refine ⟨fun fi => ?_, fun fi => ?_, fun name dt id => ⟨rfl, rfl⟩⟩ <;>
    cases fi <;> decide

/-- C6: `ESJsonEncoder.default` promotes the date 2020-01-15 to the
zero-time timestamp string, and renders a datetime at second precision
with no timezone suffix, whatever its microsecond field. -/
theorem date_encoding :
    ESJsonEncoder_default (.date ⟨2020, 1, 15⟩) = "2020-01-15T00:00:00" ∧
    ∀ microsecond, ESJsonEncoder_default
      (.datetime ⟨2020, 1, 15, 10, 30, 0, microsecond⟩) =
        "2020-01-15T10:30:00" := by
  refine ⟨by decide, fun microsecond => ?_⟩
  have h1 : ESJsonEncoder_default
      (.datetime ⟨2020, 1, 15, 10, 30, 0, microsecond⟩) =
        strftime_iso 2020 1 15 10 30 0 := rfl
  rw [h1]
  decide

/-- C9: the dispatcher's path preconditioning agrees with the spec's
formula: prepend `/` when the path does not already start with one,
then append `?` and the URL-encoded parameters exactly when the map is
non-empty. -/
theorem request_path_eq_spec :
    ∀ (path : String) (querystring_args : List (String × String)),
      request_path path querystring_args =
        dispatch_path_spec path querystring_args := by
  intro path qs
  unfold request_path dispatch_path_spec normalize_path
  by_cases h : qs = [] <;> simp [h, String.append_assoc]

/-- C5: `_send_request` never inspects the HTTP status for control
flow: two transports whose responses carry the same payload produce
the same result whatever their statuses, and against a transport
returning any fixed status and payload the caller receives exactly
`_prep_response` of the payload — never an error derived from the
status. -/
theorem send_request_ignores_status
    (t₁ t₂ : String → String → String → HttpResponse)
    (method path : String) (body : Option JVal)
    (querystring_args : List (String × String))
    (hdata : ∀ m p b, (t₁ m p b).data = (t₂ m p b).data) :
    send_request t₁ method path body querystring_args =
      send_request t₂ method path body querystring_args ∧
    ∀ (status : Nat) (data : String),
      send_request (fun _ _ _ => ⟨status, data⟩) method path body
        querystring_args = prep_response data := by
  constructor
  · exact congrArg prep_response (hdata _ _ _)
  · intro status data
    rfl

/-- Witness for `send_request_ignores_status`: a 500 response and a 200
response with the same payload `"3"` decode identically. -/
theorem send_request_ignores_status_witness :
    (send_request (fun _ _ _ => ⟨500, "3"⟩) "GET" "idx" none [] =
      send_request (fun _ _ _ => ⟨200, "3"⟩) "GET" "idx" none [] ∧
    ∀ (status : Nat) (data : String),
      send_request (fun _ _ _ => ⟨status, data⟩) "GET" "idx" none [] =
        prep_response data) :=
  send_request_ignores_status (fun _ _ _ => ⟨500, "3"⟩)
    (fun _ _ _ => ⟨200, "3"⟩) "GET" "idx" none [] (fun _ _ _ => rfl)

end Pyes
